import Mathlib

/-!
# Shallow embedding of the exiv2 Ruby binding (`ext/exiv2/exiv2.cpp`)

This file embeds the metadata value-model translator of the exiv2 Ruby
binding: the per-entry type-tag decode dispatch (`metadata_each`), the IPTC
ISO 2022 character-encoding resolver (`iptc_parse_encoding`), and the
add/delete mutation operations of the three namespace containers
(`exif_data_add`, `iptc_data_add`, `xmp_data_add`, `*_data_delete`).

Machine integers are embedded as `Nat`/`Int` with explicit reductions modulo
`2 ^ 64` / `2 ^ 32` at the C conversion points (`static_cast<long>`,
`ULL2NUM`, `UINT2NUM`), assuming the LP64 two's-complement platform the
binding is compiled for (`long` = 64-bit signed).

The underlying libexiv2 calls (value containers, tag dictionaries, `findKey`,
`Value::read`) are collaborators outside this repository; where their
behavior matters they are modelled from the design document, as noted on the
individual definitions.
-/

set_option maxHeartbeats 800000

namespace Exiv2

/-- The exiv2 `TypeId` enum: the closed set of metadata type tags that
`metadata_each` dispatches on (plus the tags reaching its `default` branch). -/
inductive TypeId
  | unsignedByte
  | asciiString
  | unsignedShort
  | unsignedLong
  | unsignedRational
  | signedByte
  | undefined
  | signedShort
  | signedLong
  | signedRational
  | tiffFloat
  | tiffDouble
  | tiffIfd
  | string
  | date
  | time
  | comment
  | directory
  | xmpText
  | xmpAlt
  | xmpBag
  | xmpSeq
  | langAlt
  | unsignedLongLong
  | signedLongLong
  | tiffIfd8
  | invalidTypeId
deriving DecidableEq, Repr

/-- Ruby encodings reachable from the binding (`rb_enc_find` names: the
ISO 2022 table of `iptc_parse_encoding` plus the `UTF_8` default). -/
inductive REncoding
  | utf8
  | utf16
  | utf32
  | usAscii
  | iso8859_1
  | iso8859_2
  | iso8859_3
  | iso8859_4
  | iso8859_6
  | iso8859_7
  | iso8859_8
  | iso8859_15
deriving DecidableEq, Repr

/-- `static_cast<long>` of an unsigned 64-bit component (what
`ValueType<uint64_t>::toLong` does): two's-complement reinterpretation of the
low 64 bits as a signed 64-bit integer. -/
def toCLong (n : Nat) : Int :=
  if n % 2 ^ 64 < 2 ^ 63 then ((n % 2 ^ 64 : Nat) : Int)
  else ((n % 2 ^ 64 : Nat) : Int) - 2 ^ 64

/-- `static_cast<int32_t>` of an unsigned 32-bit component (what
`URationalValue::toRational` does to each pair member, since
`Exiv2::Rational` is a pair of signed 32-bit ints). -/
def toCInt (n : Nat) : Int :=
  if n % 2 ^ 32 < 2 ^ 31 then ((n % 2 ^ 32 : Nat) : Int)
  else ((n % 2 ^ 32 : Nat) : Int) - 2 ^ 32

/-- Ruby `ULL2NUM`: the argument is converted to C `unsigned long long`
(reduction modulo `2 ^ 64`) and boxed as a Ruby Integer of that magnitude. -/
def ULL2NUM (i : Int) : Nat := (i % (2 ^ 64 : Int)).toNat

/-- Ruby `UINT2NUM`: conversion to C `unsigned int` (reduction modulo
`2 ^ 32`) boxed as a Ruby Integer. -/
def UINT2NUM (i : Int) : Nat := (i % (2 ^ 32 : Int)).toNat

/-- Ruby `LL2NUM`: a signed 64-bit value boxed as a Ruby Integer, exact. -/
def LL2NUM (i : Int) : Int := i

/-- Ruby `INT2NUM`: a signed 32-bit value boxed as a Ruby Integer, exact. -/
def INT2NUM (i : Int) : Int := i

/-- The raw (wire-side) value of a metadata entry, i.e. the `Exiv2::Value`
subobject: indexable components of the shape selected by the type tag.
Unsigned integer components are stored as `Nat`, signed as `Int`; rational
components as 32-bit pairs; `langalt` as the language-tag map in its
iteration order; `blob` is the raw text of `StringValueBase` / `DataValue`
style whole-value storage; float components are kept opaquely as their
stored bit patterns (no claim depends on float arithmetic). -/
inductive RawValue
  | uints (components : List Nat)
  | ints (components : List Int)
  | floats (bits : List Nat)
  | urationals (components : List (Nat × Nat))
  | srationals (components : List (Int × Int))
  | langalt (entries : List (String × String))
  | strings (components : List String)
  | blob (text : String)
deriving DecidableEq, Repr

/-- `Value::count()`: the number of indexable components (for whole-text
values, the byte count, matching `StringValueBase::count`). -/
def RawValue.count : RawValue → Nat
  | .uints ws => ws.length
  | .ints ws => ws.length
  | .floats ws => ws.length
  | .urationals ws => ws.length
  | .srationals ws => ws.length
  | .langalt es => es.length
  | .strings ws => ws.length
  | .blob s => s.length

/-- `Value::toLong(n)`: component `n` as a C `long`. For unsigned 64-bit
storage this is the `static_cast<long>` reinterpretation; rational cases use
C truncating division; shapes never reaching an integer branch return 0. -/
def RawValue.toLong : RawValue → Nat → Int
  | .uints ws, i => toCLong (ws.getD i 0)
  | .ints ws, i => ws.getD i 0
  | .urationals ws, i => Int.tdiv (toCInt (ws.getD i (0, 0)).1) (toCInt (ws.getD i (0, 0)).2)
  | .srationals ws, i => Int.tdiv (ws.getD i (0, 0)).1 (ws.getD i (0, 0)).2
  | _, _ => 0

/-- `Value::toRational(n)` as the binding uses it: an `Exiv2::Rational`,
i.e. a pair of signed 32-bit ints. For unsigned rational storage each member
is the `static_cast<int32_t>` reinterpretation of the stored `uint32_t`. -/
def RawValue.toRational : RawValue → Nat → Int × Int
  | .urationals ws, i => (toCInt (ws.getD i (0, 0)).1, toCInt (ws.getD i (0, 0)).2)
  | .srationals ws, i => ws.getD i (0, 0)
  | .uints ws, i => (toCLong (ws.getD i 0), 1)
  | .ints ws, i => (ws.getD i 0, 1)
  | _, _ => (0, 0)

/-- `Value::toFloat(n)` kept opaque as the stored bit pattern (the binding
only forwards it to `rb_float_new`; no claim inspects float values). -/
def RawValue.toFloatBits : RawValue → Nat → Nat
  | .floats ws, i => ws.getD i 0
  | _, _ => 0

/-- `Value::toString()` (whole-value): raw text for whole-text storage,
space-joined component text otherwise, matching the `write(ostream)`
rendering of `ValueType`.  Only the `blob`/`strings` shapes are exercised by
the binding paths under verification. -/
def RawValue.toStr : RawValue → String
  | .uints ws => String.intercalate " " (ws.map (fun n => toString n))
  | .ints ws => String.intercalate " " (ws.map (fun i => toString i))
  | .floats ws => String.intercalate " " (ws.map (fun n => toString n))
  | .urationals ws => String.intercalate " " (ws.map (fun p => toString p.1 ++ "/" ++ toString p.2))
  | .srationals ws => String.intercalate " " (ws.map (fun p => toString p.1 ++ "/" ++ toString p.2))
  | .langalt es => String.intercalate ", " (es.map (fun p => p.2))
  | .strings ws => String.intercalate " " ws
  | .blob s => s

/-- `Value::toString(n)` (indexed): the `n`-th component rendered as text
(`XmpArrayValue` returns the stored string directly); whole-text storage
falls back to the whole-value rendering. -/
def RawValue.toStringAt : RawValue → Nat → String
  | .uints ws, i => toString (ws.getD i 0)
  | .ints ws, i => toString (ws.getD i 0)
  | .floats ws, i => toString (ws.getD i 0)
  | .urationals ws, i => toString (ws.getD i (0, 0)).1 ++ "/" ++ toString (ws.getD i (0, 0)).2
  | .srationals ws, i => toString (ws.getD i (0, 0)).1 ++ "/" ++ toString (ws.getD i (0, 0)).2
  | .strings ws, i => ws.getD i ""
  | .langalt es, i => (es.getD i ("", "")).2
  | .blob s, _ => s

/-- One metadata record (`Exifdatum` / `Iptcdatum` / `Xmpdatum`): key,
type tag, raw value, and the `value().ok()` validity flag consulted by
`iptc_parse_encoding`. -/
structure Metadatum where
  key : String
  typeId : TypeId
  raw : RawValue
  ok : Bool
deriving DecidableEq, Repr

/-- `it->count()` on a datum forwards to its value's component count. -/
def Metadatum.count (d : Metadatum) : Nat := d.raw.count

/-- `pos->toString()` on a datum forwards to its value's whole-value text. -/
def Metadatum.toStr (d : Metadatum) : String := d.raw.toStr

/-- A Ruby `VALUE` produced by the binding: the host-facing semantic value.
`str` records the `rb_encoding` the byte string was tagged with;
`dateParse`/`timeParse` record the text handed to `Date.parse`/`Time.parse`
(always built with the default UTF-8 encoding in the source);
`rationalU`/`rationalS` record the two integers passed to `Kernel#Rational`
through `UINT2NUM` resp. `INT2NUM`. -/
inductive RubyValue
  | uint (n : Nat)
  | int (i : Int)
  | float (bits : Nat)
  | dateParse (text : String)
  | timeParse (text : String)
  | rationalU (num den : Nat)
  | rationalS (num den : Int)
  | str (text : String) (enc : REncoding)
  | hash (entries : List (RubyValue × RubyValue))
  | arr (items : List RubyValue)

/-- `to_ruby_string(string, encoding)`; the C++ declaration defaults the
encoding argument to `UTF_8`, call sites relying on the default pass
`.utf8` explicitly here. -/
def to_ruby_string (s : String) (encoding : REncoding) : RubyValue :=
  .str s encoding

/-- The `switch (it->typeId())` body of `metadata_each`: decode one entry's
raw value into the Ruby value yielded alongside its key.  Every branch of
the C++ switch assigns a non-null `value`, so the result is total.  In the
`langAlt` branch the C++ `static_cast<const LangAltValue&>` fixes the raw
shape to the language map; the non-`langalt` fallback of the inner match is
unreachable for well-typed entries and decodes as an empty hash. -/
def decode_entry (encoding : REncoding) (it : Metadatum) : RubyValue :=
  let n := it.count
  let val := it.raw
  match it.typeId with
  | .unsignedByte | .unsignedShort | .unsignedLong | .unsignedLongLong
  | .tiffIfd | .tiffIfd8 =>
      .uint (ULL2NUM (val.toLong 0))
  | .signedByte | .signedShort | .signedLong | .signedLongLong =>
      .int (LL2NUM (val.toLong 0))
  | .tiffFloat | .tiffDouble =>
      .float (val.toFloatBits 0)
  | .date =>
      .dateParse (val.toStringAt 0)
  | .time =>
      .timeParse (val.toStringAt 0)
  | .unsignedRational =>
      let rational := val.toRational 0
      .rationalU (UINT2NUM rational.1) (UINT2NUM rational.2)
  | .signedRational =>
      let rational := val.toRational 0
      .rationalS (INT2NUM rational.1) (INT2NUM rational.2)
  | .langAlt =>
      match val with
      | .langalt values =>
          if n = 1 ∧ (values.headD ("", "")).1 = "x-default" then
            to_ruby_string (values.headD ("", "")).2 encoding
          else
            .hash (values.map fun p =>
              (to_ruby_string p.1 encoding, to_ruby_string p.2 encoding))
      | _ => .hash []
  | .xmpBag | .xmpSeq =>
      .arr ((List.range n).map fun i => to_ruby_string (val.toStringAt i) encoding)
  | .undefined =>
      to_ruby_string val.toStr encoding
  | _ =>
      to_ruby_string (val.toStringAt 0) encoding

/-- `metadata_each<T>(self, encoding)`: iterate the container in insertion
order; entries with `count() == 0` are skipped with `continue`; every other
entry yields the pair of its key (always a UTF-8 Ruby string, built without
the `encoding` argument) and its decoded value. -/
def metadata_each (encoding : REncoding) (data : List Metadatum) :
    List (RubyValue × RubyValue) :=
  data.filterMap fun it =>
    if it.count = 0 then none
    else some (to_ruby_string it.key .utf8, decode_entry encoding it)

/-- `IptcData::findKey` as used by `iptc_parse_encoding`: the first entry
whose key matches, if any.  Modelled from the spec: "Looks up the first
entry with key `Iptc.Envelope.CharacterSet`" (libexiv2 `findKey` is outside
this repository). -/
def IptcData.findKey (data : List Metadatum) (key : String) : Option Metadatum :=
  data.find? fun d => d.key == key

/-- `iptc_parse_encoding(data)`: resolve the IPTC text encoding from the
`Iptc.Envelope.CharacterSet` entry's ISO 2022 escape sequence, defaulting to
ISO-8859-1 when the entry is absent, invalid (`!value().ok()`), or matches
no table row. -/
def iptc_parse_encoding (data : List Metadatum) : REncoding :=
  match IptcData.findKey data "Iptc.Envelope.CharacterSet" with
  | none => .iso8859_1
  | some pos =>
      let value := pos.toStr
      if pos.ok then
        if value = "\x1b%G" ∨ value = "\x1b%/I" then .utf8
        else if value = "\x1b%/L" then .utf16
        else if value = "\x1b%/F" then .utf32
        else if value = "\x1b(B" then .usAscii
        else if value = "\x1b.A" then .iso8859_1
        else if value = "\x1b.B" then .iso8859_2
        else if value = "\x1b.C" then .iso8859_3
        else if value = "\x1b.D" then .iso8859_4
        else if value = "\x1b.F" then .iso8859_7
        else if value = "\x1b.G" then .iso8859_6
        else if value = "\x1b.H" then .iso8859_8
        else if value = "\x1b/b" then .iso8859_15
        else .iso8859_1
      else .iso8859_1

/-- `exif_data_each`: iterate with the default UTF-8 encoding. -/
def exif_data_each (data : List Metadatum) : List (RubyValue × RubyValue) :=
  metadata_each .utf8 data

/-- `iptc_data_each`: resolve the encoding once, then iterate with it. -/
def iptc_data_each (data : List Metadatum) : List (RubyValue × RubyValue) :=
  metadata_each (iptc_parse_encoding data) data

/-- `xmp_data_each`: iterate with the default UTF-8 encoding. -/
def xmp_data_each (data : List Metadatum) : List (RubyValue × RubyValue) :=
  metadata_each .utf8 data

/-- Parse a run of decimal digits (non-empty, all digits) to its value. -/
def decDigitsVal? (cs : List Char) : Option Nat :=
  match cs with
  | [] => none
  | _ =>
      if cs.all (fun c => c.isDigit) then
        some (cs.foldl (fun n c => n * 10 + (c.toNat - 48)) 0)
      else none

/-- Parse an optionally `-`-signed run of decimal digits. -/
def decIntVal? (cs : List Char) : Option Int :=
  match cs with
  | '-' :: rest => (decDigitsVal? rest).map (fun n => -(n : Int))
  | _ => (decDigitsVal? cs).map (fun n => (n : Int))

/-- Split a character list at the first `/`, when present. -/
def breakOnSlash (cs : List Char) : Option (List Char × List Char) :=
  match cs with
  | [] => none
  | '/' :: rest => some ([], rest)
  | c :: rest => (breakOnSlash rest).map (fun p => (c :: p.1, p.2))

/-- Modelled from the spec: the textual grammar for rationals is
`"num/den"` ("parsed into the raw typed representation ... using the same
textual grammar the Decoder would produce (e.g. `num/den` for rationals)");
components are stored as unsigned 32-bit integers. -/
def parseURationalText (s : String) : Option (Nat × Nat) :=
  match breakOnSlash s.toList with
  | none => none
  | some (a, b) =>
      if b.contains '/' then none
      else
        match decDigitsVal? a, decDigitsVal? b with
        | some x, some y => some (x % 2 ^ 32, y % 2 ^ 32)
        | _, _ => none

/-- Modelled from the spec: the `"num/den"` grammar with signed 32-bit
components, for the signed rational type tag. -/
def parseSRationalText (s : String) : Option (Int × Int) :=
  match breakOnSlash s.toList with
  | none => none
  | some (a, b) =>
      if b.contains '/' then none
      else
        match decIntVal? a, decIntVal? b with
        | some x, some y => some (toCInt (x % 2 ^ 32).toNat, toCInt (y % 2 ^ 32).toNat)
        | _, _ => none

/-- Modelled from the spec: `Exiv2::Value::create(typeId)` followed by
`Value::read(text)` (both in the external libexiv2, not in this repository).
The spec's Value Encoder parses the host value's textual form "into the raw
typed representation appropriate to `typeTag`", naming the `num/den` grammar
for rationals; integer tags parse decimal text.  `read` signals the parse
outcome through its `int` return status (0 on success) — the pair's second
member is `true` exactly when the parse failed, in which case the value is
left with no components.  String-like tags (including the date/time text
types, whose parse grammar no claim depends on) store the text as given and
always succeed, as `StringValueBase::read` does. -/
def Value.read (typeId : TypeId) (text : String) : RawValue × Bool :=
  match typeId with
  | .unsignedRational =>
      match parseURationalText text with
      | some p => (.urationals [p], false)
      | none => (.urationals [], true)
  | .signedRational =>
      match parseSRationalText text with
      | some p => (.srationals [p], false)
      | none => (.srationals [], true)
  | .unsignedByte | .unsignedShort | .unsignedLong | .unsignedLongLong
  | .tiffIfd | .tiffIfd8 =>
      match decDigitsVal? text.toList with
      | some n => (.uints [n % 2 ^ 64], false)
      | none => (.uints [], true)
  | .signedByte | .signedShort | .signedLong | .signedLongLong =>
      match decIntVal? text.toList with
      | some i => (.ints [i], false)
      | none => (.ints [], true)
  | _ => (.blob text, false)

/-- The error raised by `exif_data_add` when the key names no known tag. -/
inductive AddError
  | keyResolutionError
deriving DecidableEq, Repr

/-- `exif_data_add(self, key, value)`.  The EXIF tag dictionary
(`ExifKey` construction plus `defaultTypeId()`, external libexiv2) is
modelled from the spec as the function argument `tagType`: an unrecognized
tag makes `ExifKey`'s constructor throw, which the binding does not catch —
embedded as the `Except.error` outcome, with the container untouched.
Otherwise a value of the resolved type is created and `read` from the text;
the status returned by `read` is discarded by the binding (the C++ statement
ignores the result of `v->read(...)`), the datum is appended
(`ExifData::add` appends, spec: "add (append)"), and `Qtrue` is returned. -/
def exif_data_add (tagType : String → Option TypeId) (data : List Metadatum)
    (key text : String) : Except AddError (List Metadatum × Bool) :=
  match tagType key with
  | none => .error .keyResolutionError
  | some typeId =>
      let v := Value.read typeId text
      .ok (data ++ [⟨key, typeId, v.1, true⟩], true)

/-- `iptc_data_add(self, key, value)`.  The IPTC dataset dictionary
(`IptcKey` construction plus `IptcDataSets::dataSetType`, external libexiv2)
is modelled from the spec as the function argument `dataSetType`; per the
spec, "IPTC add additionally returns failure (false) if the dictionary
lookup finds no matching dataset-type (malformed key)" — the binding maps a
non-zero `IptcData::add` result to `Qfalse` with nothing inserted.
Otherwise the value is created and `read` (status again discarded), the
datum appended, and `Qtrue` returned. -/
def iptc_data_add (dataSetType : String → Option TypeId) (data : List Metadatum)
    (key text : String) : List Metadatum × Bool :=
  match dataSetType key with
  | none => (data, false)
  | some typeId =>
      let v := Value.read typeId text
      (data ++ [⟨key, typeId, v.1, true⟩], true)

/-- `xmp_data_add(self, key, value)`.  Modelled from the spec:
`XmpData::operator[]` (external libexiv2) "assigns directly into a key→text
map without a typed encode step" — assignment to a key that already has an
entry overwrites that entry's text in place; a missing key appends a new
datum.  The binding then returns `Qtrue` unconditionally. -/
def xmp_data_add (data : List Metadatum) (key text : String) :
    List Metadatum × Bool :=
  match data.findIdx? (fun d => d.key == key) with
  | some pos => (data.set pos ⟨key, .xmpText, .blob text, true⟩, true)
  | none => (data ++ [⟨key, .xmpText, .blob text, true⟩], true)

/-- The position of the first entry whose key matches, as
`ExifData::findKey` / `IptcData::findKey` / `XmpData::findKey` return it an
iterator.  Modelled from the spec: "removes the first entry whose key
matches" (libexiv2 `findKey` is outside this repository). -/
def findKeyIdx (data : List Metadatum) (key : String) : Option Nat :=
  match data with
  | [] => none
  | d :: rest =>
      if d.key = key then some 0
      else (findKeyIdx rest key).map (fun i => i + 1)

/-- The shared shape of `exif_data_delete` / `iptc_data_delete` /
`xmp_data_delete` (the three C++ functions are textually identical up to the
container type): `findKey` the first match; if at end, return `Qfalse` with
the container unchanged; otherwise `erase` that position and return
`Qtrue`. -/
def metadata_delete (data : List Metadatum) (key : String) :
    List Metadatum × Bool :=
  match findKeyIdx data key with
  | none => (data, false)
  | some pos => (data.eraseIdx pos, true)

/-- `exif_data_delete(self, key)`. -/
def exif_data_delete (data : List Metadatum) (key : String) :
    List Metadatum × Bool :=
  metadata_delete data key

/-- `iptc_data_delete(self, key)`. -/
def iptc_data_delete (data : List Metadatum) (key : String) :
    List Metadatum × Bool :=
  metadata_delete data key

/-- `xmp_data_delete(self, key)`. -/
def xmp_data_delete (data : List Metadatum) (key : String) :
    List Metadatum × Bool :=
  metadata_delete data key

/-- `exif_data_clear` / `iptc_data_clear` / `xmp_data_clear`: empty the
container. -/
def metadata_clear (_data : List Metadatum) : List Metadatum := []

/-- Encoding discipline of a decoded Ruby value: every byte string inside it
is tagged with the given encoding (string leaves directly; hash entries and
array items are themselves such strings).  Ruby Integers, Floats, Rationals
and the `Date.parse`/`Time.parse` results carry no encoding. -/
def usesEnc (e : REncoding) : RubyValue → Prop
  | .str _ e' => e' = e
  | .hash entries =>
      ∀ p ∈ entries, (∃ s, p.1 = RubyValue.str s e) ∧ ∃ s, p.2 = RubyValue.str s e
  | .arr items => ∀ v ∈ items, ∃ s, v = RubyValue.str s e
  | _ => True

/-- Casting an unsigned 64-bit magnitude through C `long` and back through
`ULL2NUM` is the identity: the two two's-complement reinterpretations
cancel. -/
theorem ULL2NUM_toCLong (c : Nat) (hc : c < 2 ^ 64) : ULL2NUM (toCLong c) = c := by
  unfold ULL2NUM toCLong
  split <;> omega

/-- Casting an unsigned 32-bit magnitude through `int32_t` and back through
`UINT2NUM` is the identity. -/
theorem UINT2NUM_toCInt (c : Nat) (hc : c < 2 ^ 32) : UINT2NUM (toCInt c) = c := by
  unfold UINT2NUM toCInt
  split <;> omega

/-- Every byte string inside a decoded value is tagged with the encoding the
decoder was called with. -/
theorem decode_entry_usesEnc (e : REncoding) (it : Metadatum) :
    usesEnc e (decode_entry e it) := by
  obtain ⟨key, t, raw, ok⟩ := it
  cases t
  case langAlt =>
    dsimp only [decode_entry]
    cases raw
    case langalt es =>
      dsimp only
      split
      · exact rfl
      · intro p hp
        simp only [List.mem_map] at hp
        obtain ⟨q, _, rfl⟩ := hp
        exact ⟨⟨q.1, rfl⟩, q.2, rfl⟩
    all_goals exact fun p hp => absurd hp (List.not_mem_nil p)
  case xmpBag =>
    dsimp only [decode_entry]
    intro v hv
    simp only [List.mem_map] at hv
    obtain ⟨i, _, rfl⟩ := hv
    exact ⟨_, rfl⟩
  case xmpSeq =>
    dsimp only [decode_entry]
    intro v hv
    simp only [List.mem_map] at hv
    obtain ⟨i, _, rfl⟩ := hv
    exact ⟨_, rfl⟩
  all_goals first | exact trivial | exact rfl

/-- A member of the container with a non-zero component count is yielded by
`metadata_each`, paired with its UTF-8 key. -/
theorem mem_metadata_each_of_mem (e : REncoding) (data : List Metadatum)
    (d : Metadatum) (hmem : d ∈ data) (hc : d.count ≠ 0) :
    (to_ruby_string d.key .utf8, decode_entry e d) ∈ metadata_each e data :=
  List.mem_filterMap.mpr ⟨d, hmem, by simp [hc]⟩

/-- C1: for every metadata entry whose type tag is one of the unsigned
byte/short/long/longlong or IFD-pointer tags and whose repeat count is
positive, `each()` yields an unsigned Ruby Integer equal to the full
unsigned magnitude of component 0: the decode path preserves the entire
64-bit unsigned range (the `static_cast<long>` inside `toLong` and the
`ULL2NUM` reinterpretation cancel), and in particular values at or above
`2 ^ 63` are neither truncated nor sign-misinterpreted. -/
theorem c1_unsigned_decode_full_range (encoding : REncoding)
    (data : List Metadatum) (d : Metadatum) (hmem : d ∈ data)
    (ht : d.typeId = .unsignedByte ∨ d.typeId = .unsignedShort ∨
      d.typeId = .unsignedLong ∨ d.typeId = .unsignedLongLong ∨
      d.typeId = .tiffIfd ∨ d.typeId = .tiffIfd8)
    (c : Nat) (cs : List Nat) (hraw : d.raw = .uints (c :: cs))
    (hc : c < 2 ^ 64) :
    (to_ruby_string d.key .utf8, RubyValue.uint c) ∈ metadata_each encoding data := by
  have hcount : d.count ≠ 0 := by
    simp [Metadatum.count, hraw, RawValue.count]
  have hdec : decode_entry encoding d = RubyValue.uint c := by
    rcases ht with h | h | h | h | h | h <;>
      simp [decode_entry, h, hraw, RawValue.toLong, ULL2NUM_toCLong c hc]
  have hy := mem_metadata_each_of_mem encoding data d hmem hcount
  rwa [hdec] at hy

/-- C1 witness: a 64-bit IFD value above the signed range decodes to its
exact unsigned magnitude. -/
theorem c1_unsigned_decode_full_range_witness :
    (to_ruby_string "Exif.Image.ImageWidth" .utf8,
      RubyValue.uint (2 ^ 63 + 5)) ∈ metadata_each .utf8
        [⟨"Exif.Image.ImageWidth", .unsignedLongLong, .uints [2 ^ 63 + 5], true⟩] :=
  c1_unsigned_decode_full_range .utf8 _ _ (List.mem_singleton.mpr rfl)
    (Or.inr (Or.inr (Or.inr (Or.inl rfl)))) (2 ^ 63 + 5) [] rfl (by norm_num)

/-- After a successful `findKey`, the resolver's result is the validity
check followed by the escape-sequence table applied to the entry's text. -/
theorem iptc_parse_encoding_eq_of_find (data : List Metadatum) (pos : Metadatum)
    (hfind : IptcData.findKey data "Iptc.Envelope.CharacterSet" = some pos) :
    iptc_parse_encoding data =
      if pos.ok then
        if pos.toStr = "\x1b%G" ∨ pos.toStr = "\x1b%/I" then .utf8
        else if pos.toStr = "\x1b%/L" then .utf16
        else if pos.toStr = "\x1b%/F" then .utf32
        else if pos.toStr = "\x1b(B" then .usAscii
        else if pos.toStr = "\x1b.A" then .iso8859_1
        else if pos.toStr = "\x1b.B" then .iso8859_2
        else if pos.toStr = "\x1b.C" then .iso8859_3
        else if pos.toStr = "\x1b.D" then .iso8859_4
        else if pos.toStr = "\x1b.F" then .iso8859_7
        else if pos.toStr = "\x1b.G" then .iso8859_6
        else if pos.toStr = "\x1b.H" then .iso8859_8
        else if pos.toStr = "\x1b/b" then .iso8859_15
        else .iso8859_1
      else .iso8859_1 := by
  unfold iptc_parse_encoding
  rw [hfind]

/-- C2: the IPTC encoding resolver returns ISO-8859-1 when no
`Iptc.Envelope.CharacterSet` entry exists, when that entry is marked
invalid, or when its text matches no table row; otherwise it returns the
encoding mapped from the entry's ISO 2022 escape sequence (ESC %G and
ESC %/I → UTF-8; ESC %/L → UTF-16; ESC %/F → UTF-32; ESC (B → US-ASCII;
ESC .A–ESC .H and ESC /b → the ISO-8859 family); and the one resolved
encoding is applied to every string decoded during that `each()` pass. -/
theorem c2_iptc_encoding_resolution :
    (∀ data, IptcData.findKey data "Iptc.Envelope.CharacterSet" = none →
      iptc_parse_encoding data = .iso8859_1)
  ∧ (∀ data pos, IptcData.findKey data "Iptc.Envelope.CharacterSet" = some pos →
      pos.ok = false → iptc_parse_encoding data = .iso8859_1)
  ∧ (∀ data pos, IptcData.findKey data "Iptc.Envelope.CharacterSet" = some pos →
      pos.ok = true →
      ((pos.toStr = "\x1b%G" ∨ pos.toStr = "\x1b%/I") →
        iptc_parse_encoding data = .utf8)
      ∧ (pos.toStr = "\x1b%/L" → iptc_parse_encoding data = .utf16)
      ∧ (pos.toStr = "\x1b%/F" → iptc_parse_encoding data = .utf32)
      ∧ (pos.toStr = "\x1b(B" → iptc_parse_encoding data = .usAscii)
      ∧ (pos.toStr = "\x1b.A" → iptc_parse_encoding data = .iso8859_1)
      ∧ (pos.toStr = "\x1b.B" → iptc_parse_encoding data = .iso8859_2)
      ∧ (pos.toStr = "\x1b.C" → iptc_parse_encoding data = .iso8859_3)
      ∧ (pos.toStr = "\x1b.D" → iptc_parse_encoding data = .iso8859_4)
      ∧ (pos.toStr = "\x1b.F" → iptc_parse_encoding data = .iso8859_7)
      ∧ (pos.toStr = "\x1b.G" → iptc_parse_encoding data = .iso8859_6)
      ∧ (pos.toStr = "\x1b.H" → iptc_parse_encoding data = .iso8859_8)
      ∧ (pos.toStr = "\x1b/b" → iptc_parse_encoding data = .iso8859_15)
      ∧ (pos.toStr ∉ (["\x1b%G", "\x1b%/I", "\x1b%/L", "\x1b%/F", "\x1b(B",
            "\x1b.A", "\x1b.B", "\x1b.C", "\x1b.D", "\x1b.F", "\x1b.G",
            "\x1b.H", "\x1b/b"] : List String) →
          iptc_parse_encoding data = .iso8859_1))
  ∧ (∀ data kv, kv ∈ iptc_data_each data →
      usesEnc (iptc_parse_encoding data) kv.2) := by
  refine ⟨?_, ?_, ?_, ?_⟩
  · intro data hfind
    unfold iptc_parse_encoding
    rw [hfind]
  · intro data pos hfind hok
    rw [iptc_parse_encoding_eq_of_find data pos hfind, hok]
    simp
  · intro data pos hfind hok
    rw [iptc_parse_encoding_eq_of_find data pos hfind, hok]
    simp only [if_true]
    refine ⟨?_, ?_, ?_, ?_, ?_, ?_, ?_, ?_, ?_, ?_, ?_, ?_, ?_⟩ <;> intro hv
    · rcases hv with hv | hv <;> simp [hv]
    · simp [hv]
    · simp [hv]
    · simp [hv]
    · simp [hv]
    · simp [hv]
    · simp [hv]
    · simp [hv]
    · simp [hv]
    · simp [hv]
    · simp [hv]
    · simp [hv]
    · simp only [List.mem_cons, List.not_mem_nil, or_false, not_or] at hv
      obtain ⟨h1, h2, h3, h4, h5, h6, h7, h8, h9, h10, h11, h12, h13⟩ := hv
      simp [h1, h2, h3, h4, h5, h6, h7, h8, h9, h10, h11, h12, h13]
  · intro data kv hkv
    unfold iptc_data_each metadata_each at hkv
    obtain ⟨d, _, hsome⟩ := List.mem_filterMap.mp hkv
    by_cases h0 : d.count = 0
    · rw [if_pos h0] at hsome
      exact absurd hsome (Option.noConfusion)
    · rw [if_neg h0] at hsome
      have hkv2 := Option.some.inj hsome
      subst hkv2
      exact decode_entry_usesEnc _ d

/-- C2 witness: a container whose character-set marker is `ESC %G` resolves
to UTF-8; an empty container resolves to the ISO-8859-1 default. -/
theorem c2_iptc_encoding_resolution_witness :
    iptc_parse_encoding
        [⟨"Iptc.Envelope.CharacterSet", .string, .blob "\x1b%G", true⟩] = .utf8
  ∧ iptc_parse_encoding [] = .iso8859_1 :=
  ⟨(c2_iptc_encoding_resolution.2.2.1
      [⟨"Iptc.Envelope.CharacterSet", .string, .blob "\x1b%G", true⟩]
      ⟨"Iptc.Envelope.CharacterSet", .string, .blob "\x1b%G", true⟩
      rfl rfl).1 (Or.inl rfl),
    c2_iptc_encoding_resolution.1 [] rfl⟩

/-- C3: an IPTC `add` whose key resolves to no dataset type returns false
and inserts nothing; an EXIF `add` whose key names an unrecognized tag fails
with `keyResolutionError` (the uncaught `ExifKey` constructor error) without
inserting a malformed entry. -/
theorem c3_unknown_key_add_fails (tagType dataSetType : String → Option TypeId)
    (data : List Metadatum) (key text : String) :
    (dataSetType key = none →
      iptc_data_add dataSetType data key text = (data, false))
  ∧ (tagType key = none →
      exif_data_add tagType data key text = .error .keyResolutionError) := by
  constructor <;> intro h
  · simp [iptc_data_add, h]
  · simp [exif_data_add, h]

/-- C3 witness: with an empty dictionary, the IPTC add reports false and
leaves the container empty, and the EXIF add reports the key-resolution
error. -/
theorem c3_unknown_key_add_fails_witness :
    iptc_data_add (fun _ => none) [] "Iptc.Bogus.Key" "v" = ([], false)
  ∧ exif_data_add (fun _ => none) [] "Exif.Bogus.Key" "v" =
      .error .keyResolutionError :=
  ⟨(c3_unknown_key_add_fails (fun _ => none) (fun _ => none) []
      "Iptc.Bogus.Key" "v").1 rfl,
    (c3_unknown_key_add_fails (fun _ => none) (fun _ => none) []
      "Exif.Bogus.Key" "v").2 rfl⟩

/-- A concrete EXIF tag-dictionary fragment: `Exif.Photo.ExposureTime` is an
unsigned rational. -/
def exifTagTypeExample : String → Option TypeId :=
  fun key =>
    if key = "Exif.Photo.ExposureTime" then some .unsignedRational else none

/-- C4 counterexample: the text `"abc"` does not parse as an unsigned
rational (`read` reports failure), yet `exif_data_add` neither reports an
error nor refrains from inserting: it appends a datum carrying the empty
value left by the failed parse and returns true, because the binding
discards the status of `v->read(...)`. -/
theorem c4_value_parse_error_counterexample :
    (Value.read .unsignedRational "abc").2 = true
  ∧ exif_data_add exifTagTypeExample [] "Exif.Photo.ExposureTime" "abc" =
      .ok ([⟨"Exif.Photo.ExposureTime", .unsignedRational, .urationals [], true⟩],
        true)
  ∧ exif_data_add exifTagTypeExample [] "Exif.Photo.ExposureTime" "abc" ≠
      .error .keyResolutionError := by
  refine ⟨by decide, by rfl, fun h => ?_⟩
  rw [show exif_data_add exifTagTypeExample [] "Exif.Photo.ExposureTime" "abc" =
      .ok ([⟨"Exif.Photo.ExposureTime", .unsignedRational, .urationals [], true⟩],
        true) from rfl] at h
  exact Except.noConfusion h

/-- C4 amended: when the key resolves but the supplied text fails to parse
for the resolved type, the parse-failure status of `Value::read` is
discarded: both the EXIF and the IPTC `add` still insert a datum carrying
whatever value the failed `read` left behind and report success. -/
theorem c4_amended_parse_failure_ignored
    (tagType dataSetType : String → Option TypeId) (data : List Metadatum)
    (key text : String) (typeId : TypeId)
    (hfail : (Value.read typeId text).2 = true) :
    (tagType key = some typeId →
      exif_data_add tagType data key text =
        .ok (data ++ [⟨key, typeId, (Value.read typeId text).1, true⟩], true))
  ∧ (dataSetType key = some typeId →
      iptc_data_add dataSetType data key text =
        (data ++ [⟨key, typeId, (Value.read typeId text).1, true⟩], true)) := by
  clear hfail
  constructor <;> intro h
  · simp [exif_data_add, h]
  · simp [iptc_data_add, h]

/-- C4 amended witness: unparseable rational text is inserted (as the empty
value) with a success result. -/
theorem c4_amended_parse_failure_ignored_witness :
    exif_data_add exifTagTypeExample [] "Exif.Photo.ExposureTime" "zzz" =
      .ok ([⟨"Exif.Photo.ExposureTime", .unsignedRational, .urationals [], true⟩],
        true) :=
  (c4_amended_parse_failure_ignored exifTagTypeExample exifTagTypeExample []
    "Exif.Photo.ExposureTime" "zzz" .unsignedRational (by decide)).1 rfl

/-- C5: a language-alternative value with exactly one entry tagged
`x-default` decodes to the plain string value in the resolved encoding;
any other shape (more than one entry, or a single entry with a different
tag) decodes to the full language-tag → string hash with all entries. -/
theorem c5_langalt_collapse (encoding : REncoding) (key : String) (ok : Bool)
    (values : List (String × String)) :
    (∀ v, values = [("x-default", v)] →
      decode_entry encoding ⟨key, .langAlt, .langalt values, ok⟩ =
        to_ruby_string v encoding)
  ∧ (values.length ≠ 1 ∨ (values.headD ("", "")).1 ≠ "x-default" →
      decode_entry encoding ⟨key, .langAlt, .langalt values, ok⟩ =
        .hash (values.map fun p =>
          (to_ruby_string p.1 encoding, to_ruby_string p.2 encoding))) := by
  constructor
  · rintro v rfl
    rfl
  · intro h
    have hcond : ¬(values.length = 1 ∧ (values.headD ("", "")).1 = "x-default") := by
      rcases h with h | h
      · exact fun hc => h hc.1
      · exact fun hc => h hc.2
    simp only [decode_entry, Metadatum.count, RawValue.count]
    rw [if_neg hcond]

/-- C5 witness: `{"x-default" => "Hello"}` collapses to the string
`"Hello"`; adding a `"de"` entry yields a two-entry hash instead. -/
theorem c5_langalt_collapse_witness :
    decode_entry .utf8 ⟨"Xmp.dc.title", .langAlt,
        .langalt [("x-default", "Hello")], true⟩ = to_ruby_string "Hello" .utf8
  ∧ decode_entry .utf8 ⟨"Xmp.dc.title", .langAlt,
        .langalt [("x-default", "Hello"), ("de", "Hallo")], true⟩ =
      .hash [(to_ruby_string "x-default" .utf8, to_ruby_string "Hello" .utf8),
        (to_ruby_string "de" .utf8, to_ruby_string "Hallo" .utf8)] :=
  ⟨(c5_langalt_collapse .utf8 "Xmp.dc.title" true
      [("x-default", "Hello")]).1 "Hello" rfl,
    (c5_langalt_collapse .utf8 "Xmp.dc.title" true
      [("x-default", "Hello"), ("de", "Hallo")]).2 (Or.inl (by decide))⟩

/-- C6: `each()` yields exactly the entries whose repeat count is non-zero,
in container order: every `repeatCount == 0` entry is silently skipped and
every positive-count entry is yielded with its decoded value. -/
theorem c6_zero_repeat_skipped (encoding : REncoding) (data : List Metadatum) :
    metadata_each encoding data =
      (data.filter fun d => d.count != 0).map
        fun d => (to_ruby_string d.key .utf8, decode_entry encoding d) := by
  induction data with
  | nil => rfl
  | cons d rest ih =>
      by_cases h : d.count = 0 <;>
        simp only [metadata_each, List.filterMap_cons, List.filter_cons, h,
          if_pos, if_neg, bne_self_eq_false, Bool.false_eq_true, ite_false,
          ite_true] at ih ⊢
      · simpa [h] using ih
      · simpa [h] using ih

/-- No entry of the list has the key iff the scan finds no position. -/
theorem findKeyIdx_eq_none (data : List Metadatum) (key : String)
    (h : ∀ e ∈ data, e.key ≠ key) : findKeyIdx data key = none := by
  induction data with
  | nil => rfl
  | cons d rest ih =>
      simp only [findKeyIdx]
      rw [if_neg (h d (List.mem_cons_self d rest)),
        ih fun e he => h e (List.mem_cons_of_mem d he)]
      rfl

/-- The scan returns the position of the first matching entry. -/
theorem findKeyIdx_append_cons (pre : List Metadatum) (d : Metadatum)
    (post : List Metadatum) (key : String)
    (hpre : ∀ e ∈ pre, e.key ≠ key) (hd : d.key = key) :
    findKeyIdx (pre ++ d :: post) key = some pre.length := by
  induction pre with
  | nil => simp [findKeyIdx, hd]
  | cons e rest ih =>
      have h1 : e.key ≠ key := hpre e (List.mem_cons_self e rest)
      have h2 := ih fun x hx => hpre x (List.mem_cons_of_mem e hx)
      simp [findKeyIdx, h1, h2]

/-- Erasing at the position right after a prefix removes the head of the
suffix. -/
theorem eraseIdx_append_cons (pre : List Metadatum) (d : Metadatum)
    (post : List Metadatum) :
    (pre ++ d :: post).eraseIdx pre.length = pre ++ post := by
  induction pre with
  | nil => rfl
  | cons e rest ih => simpa using ih

/-- C7: `delete(key)` (identical in all three containers) removes exactly
the first entry whose key matches and returns true; with no match it
returns false and leaves the container unchanged; with two entries sharing
the key, the first is removed and the second stays observable by a
subsequent `each()`. -/
theorem c7_delete_first_match (data : List Metadatum) (key : String) :
    ((∀ e ∈ data, e.key ≠ key) → metadata_delete data key = (data, false))
  ∧ (∀ pre d post, data = pre ++ d :: post → d.key = key →
      (∀ e ∈ pre, e.key ≠ key) →
      metadata_delete data key = (pre ++ post, true))
  ∧ (∀ pre d1 mid d2 post encoding,
      data = pre ++ d1 :: (mid ++ d2 :: post) → d1.key = key → d2.key = key →
      (∀ e ∈ pre, e.key ≠ key) → d2.count ≠ 0 →
      metadata_delete data key = (pre ++ (mid ++ d2 :: post), true)
      ∧ (to_ruby_string d2.key .utf8, decode_entry encoding d2) ∈
          metadata_each encoding (metadata_delete data key).1)
  ∧ exif_data_delete = metadata_delete
  ∧ iptc_data_delete = metadata_delete
  ∧ xmp_data_delete = metadata_delete := by
  refine ⟨?_, ?_, ?_, rfl, rfl, rfl⟩
  · intro h
    unfold metadata_delete
    rw [findKeyIdx_eq_none data key h]
  · rintro pre d post rfl hd hpre
    simp [metadata_delete, findKeyIdx_append_cons pre d post key hpre hd,
      eraseIdx_append_cons pre d post]
  · rintro pre d1 mid d2 post encoding rfl hd1 hd2 hpre hc
    have hdel : metadata_delete (pre ++ d1 :: (mid ++ d2 :: post)) key =
        (pre ++ (mid ++ d2 :: post), true) := by
      simp [metadata_delete,
        findKeyIdx_append_cons pre d1 (mid ++ d2 :: post) key hpre hd1,
        eraseIdx_append_cons pre d1 (mid ++ d2 :: post)]
    refine ⟨hdel, ?_⟩
    rw [hdel]
    exact mem_metadata_each_of_mem encoding _ d2
      (List.mem_append_right pre
        (List.mem_append_right mid (List.mem_cons_self d2 post))) hc

/-- C7 witness: deleting a twice-present IPTC keyword removes only the
first occurrence, the survivor is still yielded, and deleting from an empty
container reports false. -/
theorem c7_delete_first_match_witness :
    metadata_delete
        [⟨"Iptc.Application2.Keywords", .string, .blob "alpha", true⟩,
          ⟨"Iptc.Application2.Keywords", .string, .blob "beta", true⟩]
        "Iptc.Application2.Keywords" =
      ([⟨"Iptc.Application2.Keywords", .string, .blob "beta", true⟩], true)
  ∧ (to_ruby_string "Iptc.Application2.Keywords" .utf8,
      decode_entry .utf8
        ⟨"Iptc.Application2.Keywords", .string, .blob "beta", true⟩) ∈
      metadata_each .utf8
        (metadata_delete
          [⟨"Iptc.Application2.Keywords", .string, .blob "alpha", true⟩,
            ⟨"Iptc.Application2.Keywords", .string, .blob "beta", true⟩]
          "Iptc.Application2.Keywords").1
  ∧ metadata_delete [] "Iptc.Application2.Keywords" = ([], false) :=
  ⟨((c7_delete_first_match
      [⟨"Iptc.Application2.Keywords", .string, .blob "alpha", true⟩,
        ⟨"Iptc.Application2.Keywords", .string, .blob "beta", true⟩]
      "Iptc.Application2.Keywords").2.2.1 []
      ⟨"Iptc.Application2.Keywords", .string, .blob "alpha", true⟩ []
      ⟨"Iptc.Application2.Keywords", .string, .blob "beta", true⟩ [] .utf8
      rfl rfl rfl (fun e he => absurd he (List.not_mem_nil e))
      (by decide)).1,
    ((c7_delete_first_match
      [⟨"Iptc.Application2.Keywords", .string, .blob "alpha", true⟩,
        ⟨"Iptc.Application2.Keywords", .string, .blob "beta", true⟩]
      "Iptc.Application2.Keywords").2.2.1 []
      ⟨"Iptc.Application2.Keywords", .string, .blob "alpha", true⟩ []
      ⟨"Iptc.Application2.Keywords", .string, .blob "beta", true⟩ [] .utf8
      rfl rfl rfl (fun e he => absurd he (List.not_mem_nil e))
      (by decide)).2,
    (c7_delete_first_match [] "Iptc.Application2.Keywords").1
      fun e he => absurd he (List.not_mem_nil e)⟩

/-- C8: an unsigned rational entry decodes with both the numerator and the
denominator read as their unsigned 32-bit magnitudes (the `int32_t` cast in
`toRational` and the `UINT2NUM` reinterpretation cancel, so a high bit is
not misread as a sign); and the text `"3/4"` encoded into a rational field
decodes back to numerator 3 and denominator 4. -/
theorem c8_unsigned_rational_decode (encoding : REncoding) (key : String)
    (ok : Bool) (a b : Nat) (rest : List (Nat × Nat))
    (ha : a < 2 ^ 32) (hb : b < 2 ^ 32) :
    decode_entry encoding
        ⟨key, .unsignedRational, .urationals ((a, b) :: rest), ok⟩ =
      .rationalU a b
  ∧ Value.read .unsignedRational "3/4" = (.urationals [(3, 4)], false)
  ∧ decode_entry encoding
        ⟨key, .unsignedRational, (Value.read .unsignedRational "3/4").1, ok⟩ =
      .rationalU 3 4 := by
  refine ⟨?_, by decide, by rfl⟩
  simp [decode_entry, RawValue.toRational, UINT2NUM_toCInt a ha,
    UINT2NUM_toCInt b hb]

/-- C8 witness: a numerator with the high bit set decodes to its unsigned
magnitude, and the `"3/4"` round trip holds. -/
theorem c8_unsigned_rational_decode_witness :
    decode_entry .utf8 ⟨"Exif.Photo.ExposureTime", .unsignedRational,
        .urationals [(2 ^ 31 + 7, 9)], true⟩ = .rationalU (2 ^ 31 + 7) 9
  ∧ decode_entry .utf8 ⟨"Exif.Photo.ExposureTime", .unsignedRational,
        (Value.read .unsignedRational "3/4").1, true⟩ = .rationalU 3 4 :=
  ⟨(c8_unsigned_rational_decode .utf8 "Exif.Photo.ExposureTime" true
      (2 ^ 31 + 7) 9 [] (by norm_num) (by norm_num)).1,
    (c8_unsigned_rational_decode .utf8 "Exif.Photo.ExposureTime" true
      (2 ^ 31 + 7) 9 [] (by norm_num) (by norm_num)).2.2⟩

/-- C9 counterexample: a successful XMP `add` whose key already has an
entry does not append: the existing entry is overwritten in place, the
container keeps its single entry (it does not grow to two), and the old
value is gone. -/
theorem c9_append_counterexample :
    xmp_data_add [⟨"Xmp.dc.source", .xmpText, .blob "alpha", true⟩]
        "Xmp.dc.source" "beta" =
      ([⟨"Xmp.dc.source", .xmpText, .blob "beta", true⟩], true)
  ∧ (xmp_data_add [⟨"Xmp.dc.source", .xmpText, .blob "alpha", true⟩]
        "Xmp.dc.source" "beta").1.length ≠ 2 :=
  ⟨rfl, by decide⟩

/-- C9 amended: successful EXIF and IPTC adds append (the container grows
by one, insertion order and existing entries — duplicates included — are
preserved); a successful XMP add appends only when the key is absent: when
an entry with the key already exists, that entry is overwritten in place
and the container's size is unchanged. -/
theorem c9_amended_add_semantics (tagType dataSetType : String → Option TypeId)
    (data : List Metadatum) (key text : String) (typeId : TypeId) :
    (tagType key = some typeId →
      exif_data_add tagType data key text =
        .ok (data ++ [⟨key, typeId, (Value.read typeId text).1, true⟩], true))
  ∧ (dataSetType key = some typeId →
      iptc_data_add dataSetType data key text =
        (data ++ [⟨key, typeId, (Value.read typeId text).1, true⟩], true))
  ∧ (data.findIdx? (fun d => d.key == key) = none →
      xmp_data_add data key text =
        (data ++ [⟨key, .xmpText, .blob text, true⟩], true))
  ∧ (∀ pos, data.findIdx? (fun d => d.key == key) = some pos →
      xmp_data_add data key text =
        (data.set pos ⟨key, .xmpText, .blob text, true⟩, true)
      ∧ (xmp_data_add data key text).1.length = data.length) := by
  refine ⟨fun h => ?_, fun h => ?_, fun h => ?_, fun pos h => ?_⟩
  · simp [exif_data_add, h]
  · simp [iptc_data_add, h]
  · simp [xmp_data_add, h]
  · simp [xmp_data_add, h]

/-- C9 amended witness: EXIF append on a fresh key; XMP append on an absent
key; XMP in-place overwrite on a present key. -/
theorem c9_amended_add_semantics_witness :
    exif_data_add exifTagTypeExample [] "Exif.Photo.ExposureTime" "3/4" =
      .ok ([⟨"Exif.Photo.ExposureTime", .unsignedRational,
        .urationals [(3, 4)], true⟩], true)
  ∧ xmp_data_add [] "Xmp.dc.source" "alpha" =
      ([⟨"Xmp.dc.source", .xmpText, .blob "alpha", true⟩], true)
  ∧ xmp_data_add [⟨"Xmp.dc.source", .xmpText, .blob "alpha", true⟩]
        "Xmp.dc.source" "beta" =
      ([⟨"Xmp.dc.source", .xmpText, .blob "beta", true⟩], true) :=
  ⟨(c9_amended_add_semantics exifTagTypeExample exifTagTypeExample []
      "Exif.Photo.ExposureTime" "3/4" .unsignedRational).1 rfl,
    (c9_amended_add_semantics exifTagTypeExample exifTagTypeExample []
      "Xmp.dc.source" "alpha" .unsignedRational).2.2.1 rfl,
    ((c9_amended_add_semantics exifTagTypeExample exifTagTypeExample
      [⟨"Xmp.dc.source", .xmpText, .blob "alpha", true⟩]
      "Xmp.dc.source" "beta" .unsignedRational).2.2.2 0 rfl).1⟩

/-- C10: every pair yielded by `each()` on any container carries a key
string tagged UTF-8, whatever encoding was resolved for the pass; the
resolved encoding is used only inside the decoded value. -/
theorem c10_keys_always_utf8 (encoding : REncoding) (data : List Metadatum)
    (kv : RubyValue × RubyValue) (hkv : kv ∈ metadata_each encoding data) :
    (∃ s, kv.1 = RubyValue.str s .utf8) ∧ usesEnc encoding kv.2 := by
  unfold metadata_each at hkv
  obtain ⟨d, _, hsome⟩ := List.mem_filterMap.mp hkv
  by_cases h0 : d.count = 0
  · rw [if_pos h0] at hsome
    exact absurd hsome Option.noConfusion
  · rw [if_neg h0] at hsome
    have h := Option.some.inj hsome
    subst h
    exact ⟨⟨d.key, rfl⟩, decode_entry_usesEnc encoding d⟩

/-- C10 witness: in a pass resolved to ISO-8859-1, the yielded key is still
a UTF-8 string while the value string carries ISO-8859-1. -/
theorem c10_keys_always_utf8_witness :
    (∃ s, (to_ruby_string "Iptc.Application2.Caption" .utf8,
        decode_entry .iso8859_1
          ⟨"Iptc.Application2.Caption", .string, .blob "hi", true⟩).1 =
      RubyValue.str s .utf8)
  ∧ usesEnc .iso8859_1
      (to_ruby_string "Iptc.Application2.Caption" .utf8,
        decode_entry .iso8859_1
          ⟨"Iptc.Application2.Caption", .string, .blob "hi", true⟩).2 :=
  c10_keys_always_utf8 .iso8859_1
    [⟨"Iptc.Application2.Caption", .string, .blob "hi", true⟩] _
    (mem_metadata_each_of_mem .iso8859_1 _
      ⟨"Iptc.Application2.Caption", .string, .blob "hi", true⟩
      (List.mem_singleton.mpr rfl) (by decide))

end Exiv2
